import Mathlib

/-!
Shallow embedding of `src/tools/pmempool/output.c` (pmempool output module).

Text is modelled as `List Char`; each line written to the stream is one
`List Char`, and a whole dump is the list of lines in emission order.
Machine integers are `Nat`/`Int` with explicit `% 2 ^ w` where the C code
casts or where printf reinterprets the argument. Buffers of bytes are
`List Nat` whose elements are the `uint8_t` values (below 256 for real
buffers). All definitions are structural (fuel-bounded where the C loop
is a while loop), so everything evaluates on concrete inputs.
-/

/-- Digit expansion of n in the given base, most significant digit first,
using the standard digit characters (lowercase a..f above 9). Fuel-bounded
structural recursion; fuel 64 covers every value below base ^ 64, far more
than any 64-bit quantity printed by the module. Models the digit part of
the printf conversions %u, %x, %lx. -/
def digitsAux (base : Nat) : Nat → Nat → List Char
  | 0, _ => []
  | fuel + 1, n => if n = 0 then [] else digitsAux base fuel (n / base) ++ [Nat.digitChar (n % base)]

/-- Rendering of n in the given base; 0 renders as "0". -/
def natToBase (base n : Nat) : List Char :=
  if n = 0 then ['0'] else digitsAux base 64 n

/-- Zero padding to minimum width w, as produced by the printf 0-flag. -/
def zeroPad (w : Nat) (l : List Char) : List Char :=
  List.replicate (w - l.length) '0' ++ l

/-- printf "%08lx" / "%08x" of a value: lowercase hex, zero-padded to a
minimum width of 8 characters. -/
def hexPad8 (n : Nat) : List Char := zeroPad 8 (natToBase 16 n)

/-- printf "%-*s": left-justified space padding to minimum width w. -/
def padRight (w : Nat) (l : List Char) : List Char :=
  l ++ List.replicate (w - l.length) ' '

/-- printf "%ld" applied to a uint64_t argument: the value is reinterpreted
as a signed 64-bit integer (two's complement), so values at or above 2 ^ 63
print with a minus sign. -/
def sprintf_ld (n : Nat) : List Char :=
  if n < 2 ^ 63 then natToBase 10 n else '-' :: natToBase 10 (2 ^ 64 - n)

/-- HEXDUMP_ROW_WIDTH of output.c. -/
def HEXDUMP_ROW_WIDTH : Nat := 16

/-- HEXDUMP_ROW_HEX_LEN of output.c: 2 chars + space per byte, plus the
space after 8 bytes and the terminating NUL; equals 50. -/
def HEXDUMP_ROW_HEX_LEN : Nat := HEXDUMP_ROW_WIDTH * 3 + 1 + 1

/-- HEXDUMP_ROW_ASCII_LEN of output.c: one printable char per byte plus the
terminating NUL; equals 17. -/
def HEXDUMP_ROW_ASCII_LEN : Nat := HEXDUMP_ROW_WIDTH + 1

/-- SEPARATOR_CHAR of output.c. -/
def SEPARATOR_CHAR : Char := '-'

/-- outv_check -- verify verbosity level: returns (out_vlevel >= vlevel).
The configured level out_vlevel is passed explicitly in this embedding. -/
def outv_check (out_vlevel vlevel : Int) : Bool := decide (vlevel ≤ out_vlevel)

/-- Process-wide configuration state relevant to the claims: the verbosity
level out_vlevel and the optional out_prefix string (out_pfx here). The
output stream is modelled by returning the written text. -/
structure OutState where
  out_vlevel : Int
  out_pfx : Option (List Char)

/-- The text written by the _out_prefix helper: "<prefix>: " when the
prefix is set, nothing otherwise. -/
def out_pfx_str (st : OutState) : List Char :=
  match st.out_pfx with
  | some p => p ++ (':' :: ' ' :: [])
  | none => []

/-- outv -- print message taking into account verbosity level. msg stands
for the text vfprintf would produce from the format string and arguments.
The result is the byte sequence written to the configured stream. -/
def outv (st : OutState) (vlevel : Int) (msg : List Char) : List Char :=
  if outv_check st.out_vlevel vlevel then out_pfx_str st ++ msg else []

/-- out_get_printable_ascii -- convert non-printable ascii to dot '.'.
isprint in the C locale holds exactly for the byte values 0x20..0x7e. -/
def out_get_printable_ascii (b : Nat) : Char :=
  if 32 ≤ b ∧ b ≤ 126 then Char.ofNat b else '.'

/-- printf "%02x" of one byte. The buffers dumped are uint8_t, so the
argument is below 256 and the conversion yields exactly two digits. -/
def hex2 (b : Nat) : List Char := [Nat.digitChar (b / 16), Nat.digitChar (b % 16)]

/-- Body of the out_get_hex_str loop: byte i contributes "%02x " and, when
i is a nonzero multiple of 8, one extra leading space. i is the running
loop index. -/
def hex_row_aux (i : Nat) : List Nat → List Char
  | [] => []
  | b :: bs =>
    ((if i ≠ 0 ∧ i % 8 = 0 then [' '] else []) ++ hex2 b ++ [' ']) ++ hex_row_aux (i + 1) bs

/-- out_get_hex_str -- get string with hexadecimal dump of buffer. Returns
-1 when str_len < 3 * len + 1; otherwise the accumulated snprintf count
(the length of the produced text) and the buffer contents. At every call
proved about below the buffer is large enough, so no truncation occurs. -/
def out_get_hex_str (str_len : Nat) (datap : List Nat) (len : Nat) : Int × List Char :=
  if str_len < 3 * len + 1 then (-1, [])
  else
    let s := hex_row_aux 0 (datap.take len)
    ((s.length : Int), s)

/-- out_get_ascii_str -- get string with printable ASCII dump of buffer.
Returns -1 when str_len < len; otherwise one printable character per byte
together with the accumulated count. -/
def out_get_ascii_str (str_len : Nat) (datap : List Nat) (len : Nat) : Int × List Char :=
  if str_len < len then (-1, [])
  else
    let s := (datap.take len).map out_get_printable_ascii
    ((s.length : Int), s)

/-- One row as printed by fprintf(out_fh, "%08lx  %-*s|%-*s|\n", ...), the
width arguments being HEXDUMP_ROW_HEX_LEN and HEXDUMP_ROW_WIDTH. -/
def hexdump_row_line (offsetv : Nat) (hexs asciis : List Char) : List Char :=
  hexPad8 offsetv ++ (' ' :: ' ' :: []) ++ padRight HEXDUMP_ROW_HEX_LEN hexs
    ++ ('|' :: []) ++ padRight HEXDUMP_ROW_WIDTH asciis ++ ('|' :: '\n' :: [])

/-- The line "*\n" printed for the first repeated row. -/
def starLine : List Char := ['*', '\n']

/-- The condition of "if (ra && rh)" guarding the row fprintf: C truth of
the two assembler return values, i.e. both nonzero. -/
def row_print_guard (ra rh : Int) : Bool := (ra != 0) && (rh != 0)

/-- The row line outv_hexdump prints for the row of l bytes starting at
index curr of data, labelled curr + offset. -/
def rowLineAt (data : List Nat) (offset curr l : Nat) : List Char :=
  hexdump_row_line (curr + offset)
    (out_get_hex_str HEXDUMP_ROW_HEX_LEN (data.drop curr) l).2
    (out_get_ascii_str HEXDUMP_ROW_ASCII_LEN (data.drop curr) l).2

/-- The while loop of outv_hexdump. State: remaining len, cursors curr and
prev, the repeated latch, and n, the return value of the most recent row
fprintf. The loop consumes at least one byte per iteration, so any fuel of
at least len reproduces the C loop exactly. Result: the emitted lines in
order, and the final n. The memcmp of the C code is the equality of the
two curr_len-byte windows. -/
def outv_hexdump_loop (data : List Nat) (offset : Nat) :
    Nat → Nat → Nat → Nat → Bool → Nat → List (List Char) × Nat
  | 0, _, _, _, _, n => ([], n)
  | fuel + 1, len, curr, prev, repeated, n =>
    if len = 0 then ([], n)
    else
      let curr_len := min len HEXDUMP_ROW_WIDTH
      if len ≠ curr_len ∧ curr ≠ 0 ∧
          (data.drop prev).take curr_len = (data.drop curr).take curr_len then
        if repeated then
          outv_hexdump_loop data offset fuel (len - curr_len) (curr + curr_len) prev true n
        else
          let r := outv_hexdump_loop data offset fuel (len - curr_len) (curr + curr_len) prev true n
          (starLine :: r.1, r.2)
      else
        let rh := out_get_hex_str HEXDUMP_ROW_HEX_LEN (data.drop curr) curr_len
        let ra := out_get_ascii_str HEXDUMP_ROW_ASCII_LEN (data.drop curr) curr_len
        if row_print_guard ra.1 rh.1 then
          let line := hexdump_row_line (curr + offset) rh.2 ra.2
          let r := outv_hexdump_loop data offset fuel (len - curr_len) (curr + curr_len) curr false line.length
          (line :: r.1, r.2)
        else
          outv_hexdump_loop data offset fuel (len - curr_len) (curr + curr_len) curr false n

/-- outv_hexdump -- print buffer in canonical hex+ASCII format. Returns
nothing when the verbosity gate is closed or len is 0; otherwise the loop
output, followed, when sep is set and a row was printed (n nonzero), by
one line of n - 1 SEPARATOR_CHARs and a newline (the while(--n) loop). -/
def outv_hexdump (out_vlevel vlevel : Int) (data : List Nat) (len offset : Nat) (sep : Bool) :
    List (List Char) :=
  if outv_check out_vlevel vlevel = false ∨ len = 0 then []
  else
    let r := outv_hexdump_loop data offset len len 0 0 false 0
    if sep ∧ r.2 ≠ 0 then r.1 ++ [List.replicate (r.2 - 1) SEPARATOR_CHAR ++ ['\n']]
    else r.1

/-- The unit letters of out_get_size_str. The C array has a fifth entry,
the NUL terminator '\0', and nunits = 5 counts it as well. -/
def unit_chars : List Char := ['K', 'M', 'G', 'T']

/-- nunits of out_get_size_str: sizeof(units)/sizeof(units[0]) = 5. -/
def nunits : Nat := 5

/-- The division loop of out_get_size_str, counting the number d of
divisions performed (the C index i is d - 1). The C loop works on doubles:
csize starts as (double)size, each round divides it by 1024, and the
condition is csize >= 1024 && i < nunits, i.e. d < nunits + 1. The
comparison is modelled exactly as 1024 ^ (d + 1) <= size. This agrees with
the double computation whenever (double)size is exact -- in particular for
every size below 2 ^ 53 and for every power of two, since division by 1024
only lowers the exponent; in the narrow windows just below a threshold
where the conversion rounds up (e.g. 2 ^ 60 - 1, whose nearest double is
2 ^ 60) the real code performs one more division than this exact model.
Every size a theorem below evaluates lies in the exact regime. i grows by
one per iteration and the loop stops once it reaches nunits, so fuel 8 is
never exhausted. -/
def size_loop : Nat → Nat → Nat → Nat
  | 0, _, d => d
  | fuel + 1, size, d =>
    if 1024 ^ (d + 1) ≤ size ∧ d < nunits + 1 then size_loop fuel size (d + 1) else d

/-- printf "%.1f" of the exact value size / 1024 ^ d: round to one decimal
digit, ties to even (the correct rounding glibc performs on the double). -/
def fmt_f1_div (size d : Nat) : List Char :=
  let P := 1024 ^ d
  let q10 := 10 * size
  let q := q10 / P
  let r := q10 % P
  let t := if 2 * r < P then q else if P < 2 * r then q + 1 else if q % 2 = 0 then q else q + 1
  natToBase 10 (t / 10) ++ ('.' :: [Nat.digitChar (t % 10)])

/-- out_get_size_str -- return size string. human = 0: snprintf "%ld" of
the size (signed reinterpretation). Otherwise the division loop runs; with
i = d - 1, the branch i >= 0 and i < nunits is 1 <= d and d <= 5. For
d <= 4 the unit is the letter units[d - 1]; snprintf "%.1f%c" appends it,
and mode 2 further appends " [%lu]". For d = 5 the selected unit is the
NUL terminator units[4]: the %c writes '\0' into the buffer, so the
resulting C string ends right after the number and everything after the
NUL (including the " [%lu]" of mode 2) is invisible. Outside the branch
the fallback is snprintf "%ld" of the size. -/
def out_get_size_str (size : Nat) (human : Nat) : List Char :=
  if human = 0 then sprintf_ld size
  else
    let d := size_loop 8 size 0
    if 1 ≤ d ∧ d ≤ nunits then
      if d ≤ 4 then
        fmt_f1_div size d ++ [unit_chars.getD (d - 1) ' '] ++
          (if human = 1 then [] else ' ' :: '[' :: (natToBase 10 size ++ [']']))
      else
        fmt_f1_div size d
    else
      sprintf_ld size

/-- out_get_checksum -- return checksum string with result. The external
validator util_validate_checksum is a parameter: applied to the original
stored value it returns the verdict and the value it leaves in *csump (the
expected checksum). csum0 is *csump on entry. The result is the formatted
string and the final value of *csump; the (uint32_t) casts of the %08x
conversions are the % 2 ^ 32 reductions. -/
def out_get_checksum (validate : Nat → Bool × Nat) (csum0 : Nat) : List Char × Nat :=
  let csum := csum0
  let vres := validate csum0
  let valid := vres.1
  let csump_after := vres.2
  let s :=
    if valid then
      ('0' :: 'x' :: []) ++ hexPad8 (csum % 2 ^ 32) ++ " [OK]".toList
    else
      ('0' :: 'x' :: []) ++ hexPad8 (csum % 2 ^ 32) ++ " [wrong! should be: 0x".toList
        ++ hexPad8 (csump_after % 2 ^ 32) ++ "]".toList
  (s, csum)

/-- Length of the final row of a dump of len bytes: in 1..16, equal to 16
exactly when 16 divides len. -/
def lastLen (len : Nat) : Nat := (len - 1) % 16 + 1

/-- The sixteen lowercase hexadecimal digit characters. -/
def lowerHexDigits : List Char := "0123456789abcdef".toList

/-- Length of the hex_row_aux output as a function of the byte count and
the starting index only (every token is two digits plus a space). -/
def hexLenAux (i : Nat) : Nat → Nat
  | 0 => 0
  | l + 1 => (if i ≠ 0 ∧ i % 8 = 0 then 1 else 0) + 3 + hexLenAux (i + 1) l

/-- Claim-side hex column (C3): two-digit tokens separated by single
spaces, with one extra space between the 8th and the 9th token; i is the
index of the first token of the list. -/
def spec_hex_tokens_aux (i : Nat) : List Nat → List Char
  | [] => []
  | b :: bs =>
    ((if i = 0 then [] else if i % 8 = 0 then [' ', ' '] else [' ']) ++ hex2 b)
      ++ spec_hex_tokens_aux (i + 1) bs

/-- Claim-side row shape (C3): the row offset as 8 zero-padded lowercase
hex digits, two spaces, the hex column padded to 16 * 3 + 1 = 49
characters, exactly one space, the bar, the ASCII column padded to 16
characters, the closing bar and a newline. -/
def spec_row_line (offsetv : Nat) (bs : List Nat) : List Char :=
  hexPad8 offsetv ++ (' ' :: ' ' :: []) ++ padRight 49 (spec_hex_tokens_aux 0 bs) ++ (' ' :: [])
    ++ ('|' :: []) ++ padRight 16 (bs.map out_get_printable_ascii) ++ ('|' :: '\n' :: [])

/-- Claim-side division rule (C6), as the claim words it: divide by 1024
while the value is at least 1024 and a unit letter (K, M, G, T) remains. -/
def size_loop_claimed : Nat → Nat → Nat → Nat
  | 0, _, d => d
  | fuel + 1, size, d =>
    if 1024 ^ (d + 1) ≤ size ∧ d < 4 then size_loop_claimed fuel size (d + 1) else d

/-- Claim-side human rendering (C6): the value after the claimed division
rule with the chosen unit letter, or plain decimal below 1024. -/
def size_str_claimed (size : Nat) : List Char :=
  let d := size_loop_claimed 8 size 0
  if 1 ≤ d then fmt_f1_div size d ++ [unit_chars.getD (d - 1) ' ']
  else natToBase 10 size

/-! Helper lemmas about the rendering primitives. -/

theorem digitsAux_length_le (fuel : Nat) :
    ∀ n w, n < 16 ^ w → w ≤ fuel → (digitsAux 16 fuel n).length ≤ w := by
  induction fuel with
  | zero => intro n w _ _; simp [digitsAux]
  | succ f ih =>
    intro n w hn hw
    by_cases h0 : n = 0
    · simp [digitsAux, h0]
    · have hw1 : 1 ≤ w := by
        by_contra h
        have : w = 0 := by omega
        subst this
        simp at hn
        omega
      have hdiv : n / 16 < 16 ^ (w - 1) := by
        have h16 : 0 < 16 := by omega
        rw [Nat.div_lt_iff_lt_mul h16]
        calc n < 16 ^ w := hn
        _ = 16 ^ (w - 1) * 16 := by
              rw [← Nat.pow_succ]
              congr 1
              omega
      have := ih (n / 16) (w - 1) hdiv (by omega)
      simp [digitsAux, h0]
      omega

theorem natToBase16_length_le (n : Nat) (h : n < 16 ^ 8) : (natToBase 16 n).length ≤ 8 := by
  by_cases h0 : n = 0
  · simp [natToBase, h0]
  · simp [natToBase, h0]
    exact digitsAux_length_le 64 n 8 h (by omega)

theorem hexPad8_length (n : Nat) (h : n < 16 ^ 8) : (hexPad8 n).length = 8 := by
  have := natToBase16_length_le n h
  simp [hexPad8, zeroPad]
  omega

theorem hexPad8_length_ge (n : Nat) : 8 ≤ (hexPad8 n).length := by
  simp [hexPad8, zeroPad]
  omega

theorem padRight_length (w : Nat) (l : List Char) (h : l.length ≤ w) :
    (padRight w l).length = w := by
  simp [padRight]
  omega

theorem padRight_length_ge (w : Nat) (l : List Char) : w ≤ (padRight w l).length := by
  simp [padRight]
  omega

theorem hex_row_aux_length (bs : List Nat) : ∀ i, (hex_row_aux i bs).length = hexLenAux i bs.length := by
  induction bs with
  | nil => intro i; simp [hex_row_aux, hexLenAux]
  | cons b bs ih =>
    intro i
    by_cases h : i ≠ 0 ∧ i % 8 = 0 <;>
      simp [hex_row_aux, hexLenAux, h, ih (i + 1), hex2] <;> omega

theorem hexLenAux_le : ∀ l < 17, hexLenAux 0 l ≤ 49 := by decide

theorem hexLenAux_pos (m : Nat) : 3 ≤ hexLenAux 0 (m + 1) := by
  simp [hexLenAux]

theorem out_get_hex_str_eq (dp : List Nat) (l : Nat) (hl : l ≤ 16) :
    out_get_hex_str HEXDUMP_ROW_HEX_LEN dp l =
      (((hex_row_aux 0 (dp.take l)).length : Int), hex_row_aux 0 (dp.take l)) := by
  have h : ¬ (HEXDUMP_ROW_HEX_LEN < 3 * l + 1) := by
    simp [HEXDUMP_ROW_HEX_LEN, HEXDUMP_ROW_WIDTH]
    omega
  simp [out_get_hex_str, h]

theorem out_get_ascii_str_eq (dp : List Nat) (l : Nat) (hl : l ≤ 16) :
    out_get_ascii_str HEXDUMP_ROW_ASCII_LEN dp l =
      ((((dp.take l).map out_get_printable_ascii).length : Int),
        (dp.take l).map out_get_printable_ascii) := by
  have h : ¬ (HEXDUMP_ROW_ASCII_LEN < l) := by
    simp [HEXDUMP_ROW_ASCII_LEN, HEXDUMP_ROW_WIDTH]
    omega
  simp [out_get_ascii_str, h]

theorem out_get_hex_str_len_le (dp : List Nat) (l : Nat) (hl : l ≤ 16) :
    ((out_get_hex_str HEXDUMP_ROW_HEX_LEN dp l).2).length ≤ 49 := by
  rw [out_get_hex_str_eq dp l hl]
  show (hex_row_aux 0 (dp.take l)).length ≤ 49
  rw [hex_row_aux_length]
  apply hexLenAux_le
  have : (dp.take l).length ≤ l := by
    simp [List.length_take]
  omega

theorem out_get_ascii_str_len_le (dp : List Nat) (l : Nat) (hl : l ≤ 16) :
    ((out_get_ascii_str HEXDUMP_ROW_ASCII_LEN dp l).2).length ≤ 16 := by
  rw [out_get_ascii_str_eq dp l hl]
  simp [List.length_take]
  omega

theorem hexdump_guards_pass (data : List Nat) (curr l : Nat)
    (h1 : 1 ≤ l) (h16 : l ≤ 16) (hcur : curr < data.length) :
    row_print_guard (out_get_ascii_str HEXDUMP_ROW_ASCII_LEN (data.drop curr) l).1
      (out_get_hex_str HEXDUMP_ROW_HEX_LEN (data.drop curr) l).1 = true := by
  have hdl : 1 ≤ (data.drop curr).length := by
    simp [List.length_drop]
    omega
  have htl : 1 ≤ ((data.drop curr).take l).length := by
    simp [List.length_take]
    omega
  have hh : 3 ≤ (hex_row_aux 0 ((data.drop curr).take l)).length := by
    rw [hex_row_aux_length]
    obtain ⟨m, hm⟩ : ∃ m, ((data.drop curr).take l).length = m + 1 :=
      ⟨((data.drop curr).take l).length - 1, by omega⟩
    rw [hm]
    exact hexLenAux_pos m
  have hra : (out_get_ascii_str HEXDUMP_ROW_ASCII_LEN (data.drop curr) l).1 =
      ((((data.drop curr).take l).map out_get_printable_ascii).length : Int) := by
    rw [out_get_ascii_str_eq _ l h16]
  have hrh : (out_get_hex_str HEXDUMP_ROW_HEX_LEN (data.drop curr) l).1 =
      ((hex_row_aux 0 ((data.drop curr).take l)).length : Int) := by
    rw [out_get_hex_str_eq _ l h16]
  rw [hra, hrh, row_print_guard]
  rw [List.length_map]
  have g1 : ((((data.drop curr).take l).length : Int) != 0) = true := by
    simp only [bne_iff_ne, ne_eq, Nat.cast_eq_zero]
    omega
  have g2 : (((hex_row_aux 0 ((data.drop curr).take l)).length : Int) != 0) = true := by
    simp only [bne_iff_ne, ne_eq, Nat.cast_eq_zero]
    omega
  rw [g1, g2]
  rfl

theorem hexdump_row_line_length (offsetv : Nat) (h a : List Char)
    (hh : h.length ≤ 50) (ha : a.length ≤ 16) (ho : offsetv < 16 ^ 8) :
    (hexdump_row_line offsetv h a).length = 79 := by
  have h8 := hexPad8_length offsetv ho
  simp [hexdump_row_line, padRight, HEXDUMP_ROW_HEX_LEN, HEXDUMP_ROW_WIDTH, h8]
  omega

theorem row_line_ne_star (offsetv : Nat) (h a : List Char) :
    hexdump_row_line offsetv h a ≠ starLine := by
  intro hEq
  have := congrArg List.length hEq
  have h8 := hexPad8_length_ge offsetv
  simp [hexdump_row_line, padRight, starLine, HEXDUMP_ROW_HEX_LEN, HEXDUMP_ROW_WIDTH] at this
  omega

/-! The hex column produced by the code equals the claim-side token layout
followed by a single trailing space. -/

theorem hex_row_aux_append (b : Nat) :
    ∀ (bs : List Nat) (i : Nat),
      hex_row_aux i (bs ++ [b]) =
        hex_row_aux i bs ++
          ((if i + bs.length ≠ 0 ∧ (i + bs.length) % 8 = 0 then [' '] else []) ++ hex2 b ++ [' ']) := by
  intro bs
  induction bs with
  | nil => intro i; simp [hex_row_aux]
  | cons x xs ih =>
    intro i
    simp only [List.cons_append, hex_row_aux, List.append_eq]
    rw [ih (i + 1)]
    simp only [List.length_cons]
    have harith : i + 1 + xs.length = i + (xs.length + 1) := by omega
    rw [harith]
    simp [List.append_assoc]

theorem spec_hex_tokens_aux_append (b : Nat) :
    ∀ (bs : List Nat) (i : Nat),
      spec_hex_tokens_aux i (bs ++ [b]) =
        spec_hex_tokens_aux i bs ++
          ((if i + bs.length = 0 then []
            else if (i + bs.length) % 8 = 0 then [' ', ' '] else [' ']) ++ hex2 b) := by
  intro bs
  induction bs with
  | nil => intro i; simp [spec_hex_tokens_aux]
  | cons x xs ih =>
    intro i
    simp only [List.cons_append, spec_hex_tokens_aux, List.append_eq]
    rw [ih (i + 1)]
    simp only [List.length_cons]
    have harith : i + 1 + xs.length = i + (xs.length + 1) := by omega
    rw [harith]
    simp [List.append_assoc]

theorem hex_eq_spec_tokens (bs : List Nat) (hne : bs ≠ []) :
    hex_row_aux 0 bs = spec_hex_tokens_aux 0 bs ++ [' '] := by
  induction bs using List.reverseRecOn with
  | nil => exact absurd rfl hne
  | append_singleton xs b ih =>
    rcases Decidable.em (xs = []) with hx | hx
    · subst hx
      simp [hex_row_aux, spec_hex_tokens_aux]
    · rw [hex_row_aux_append, spec_hex_tokens_aux_append, ih hx]
      have hlen : xs.length ≠ 0 := by
        intro h
        exact hx (List.length_eq_zero.mp h)
      rcases Decidable.em (xs.length % 8 = 0) with h8 | h8 <;>
        simp [hx, hlen, h8, List.append_assoc]

theorem padRight_shift (s : List Char) (hs : s.length ≤ 49) :
    padRight 50 (s ++ [' ']) = padRight 49 s ++ [' '] := by
  simp only [padRight, List.length_append, List.length_cons, List.length_nil]
  have h1 : 50 - (s.length + 1) = 49 - s.length := by omega
  rw [h1, List.append_assoc, List.append_assoc]
  congr 1
  have h2 : (' ' :: List.replicate (49 - s.length) ' ') = List.replicate (49 - s.length) ' ' ++ [' '] := by
    rw [← List.replicate_succ, List.replicate_succ']
  simp only [List.singleton_append]
  rw [h2]

/-! Lemmas about the dump loop. -/

theorem loop_len_zero (data : List Nat) (offset : Nat) (fuel curr prev : Nat) (rep : Bool) (n : Nat) :
    outv_hexdump_loop data offset fuel 0 curr prev rep n = ([], n) := by
  cases fuel <;> simp [outv_hexdump_loop]

theorem loop_last (data : List Nat) (offset : Nat) :
    ∀ fuel len curr prev rep n, 1 ≤ len → len ≤ fuel → curr + len ≤ data.length →
      ∃ L, outv_hexdump_loop data offset fuel len curr prev rep n =
        (L ++ [rowLineAt data offset (curr + (len - lastLen len)) (lastLen len)],
          (rowLineAt data offset (curr + (len - lastLen len)) (lastLen len)).length) := by
  intro fuel
  induction fuel with
  | zero =>
    intro len curr prev rep n h1 hf hd
    omega
  | succ f ih =>
    intro len curr prev rep n h1 hf hd
    have hlen0 : ¬ len = 0 := by omega
    by_cases hA : len ≤ 16
    · have hmin : min len HEXDUMP_ROW_WIDTH = len := by
        simp [HEXDUMP_ROW_WIDTH]
        omega
      have hll : lastLen len = len := by
        simp [lastLen]
        omega
      have hguard := hexdump_guards_pass data curr len h1 hA (by omega)
      refine ⟨[], ?_⟩
      rw [outv_hexdump_loop]
      simp only [hlen0, if_false, hmin]
      have hcond : ¬ (len ≠ len ∧ curr ≠ 0 ∧
          (data.drop prev).take len = (data.drop curr).take len) := by
        intro h
        exact h.1 rfl
      rw [if_neg hcond, if_pos hguard]
      simp only [Nat.sub_self, loop_len_zero]
      simp [hll, rowLineAt]
    · have hmin : min len HEXDUMP_ROW_WIDTH = 16 := by
        simp [HEXDUMP_ROW_WIDTH]
        omega
      have h17 : 17 ≤ len := by omega
      have hll : lastLen (len - 16) = lastLen len := by
        simp [lastLen]
        omega
      have hrec : 1 ≤ len - 16 ∧ len - 16 ≤ f ∧ (curr + 16) + (len - 16) ≤ data.length := by
        omega
      have hlast_le : lastLen len ≤ len - 16 := by
        simp [lastLen]
        omega
      have hidx : curr + 16 + (len - 16 - lastLen len) = curr + (len - lastLen len) := by
        omega
      rw [outv_hexdump_loop]
      simp only [hlen0, if_false, hmin]
      by_cases hc : len ≠ 16 ∧ curr ≠ 0 ∧
          (data.drop prev).take 16 = (data.drop curr).take 16
      · rw [if_pos hc]
        cases rep with
        | true =>
          obtain ⟨L, hL⟩ := ih (len - 16) (curr + 16) prev true n hrec.1 hrec.2.1 hrec.2.2
          rw [hll, hidx] at hL
          exact ⟨L, by simpa using hL⟩
        | false =>
          obtain ⟨L, hL⟩ := ih (len - 16) (curr + 16) prev true n hrec.1 hrec.2.1 hrec.2.2
          rw [hll, hidx] at hL
          refine ⟨starLine :: L, ?_⟩
          simp only [hL]
          simp
      · rw [if_neg hc]
        have hguard := hexdump_guards_pass data curr 16 (by omega) (by omega) (by omega)
        rw [if_pos hguard]
        obtain ⟨L, hL⟩ := ih (len - 16) (curr + 16) curr false
          (hexdump_row_line (curr + offset)
            (out_get_hex_str HEXDUMP_ROW_HEX_LEN (data.drop curr) 16).2
            (out_get_ascii_str HEXDUMP_ROW_ASCII_LEN (data.drop curr) 16).2).length
          hrec.1 hrec.2.1 hrec.2.2
        rw [hll, hidx] at hL
        refine ⟨hexdump_row_line (curr + offset)
            (out_get_hex_str HEXDUMP_ROW_HEX_LEN (data.drop curr) 16).2
            (out_get_ascii_str HEXDUMP_ROW_ASCII_LEN (data.drop curr) 16).2 :: L, ?_⟩
        simp only [hL]
        simp

theorem loop_head (data : List Nat) (offset : Nat) (fuel len prev : Nat) (rep : Bool) (n : Nat)
    (h1 : 1 ≤ len) (hf : len ≤ fuel) (hd : len ≤ data.length) :
    ∃ rest m, outv_hexdump_loop data offset fuel len 0 prev rep n =
      (rowLineAt data offset 0 (min len 16) :: rest, m) := by
  obtain ⟨f, rfl⟩ : ∃ f, fuel = f + 1 := ⟨fuel - 1, by omega⟩
  have hlen0 : ¬ len = 0 := by omega
  have hw : min len HEXDUMP_ROW_WIDTH = min len 16 := by
    simp [HEXDUMP_ROW_WIDTH]
  have hcond : ¬ (len ≠ min len 16 ∧ (0 : Nat) ≠ 0 ∧
      (data.drop prev).take (min len 16) = (data.drop 0).take (min len 16)) := by
    intro h
    exact h.2.1 rfl
  have hguard := hexdump_guards_pass data 0 (min len 16) (by omega) (by omega) (by omega)
  rw [outv_hexdump_loop]
  simp only [hlen0, if_false, hw]
  rw [if_neg hcond, if_pos hguard]
  exact ⟨_, _, rfl⟩

theorem loop_star_discipline (data : List Nat) (offset : Nat) :
    ∀ fuel len curr prev rep n, curr + len ≤ data.length →
      ((rep = true → ∀ x, ((outv_hexdump_loop data offset fuel len curr prev rep n).1).head? = some x →
          x ≠ starLine) ∧
        List.Chain' (fun a b => ¬ (a = starLine ∧ b = starLine))
          (outv_hexdump_loop data offset fuel len curr prev rep n).1) := by
  intro fuel
  induction fuel with
  | zero =>
    intro len curr prev rep n hd
    simp [outv_hexdump_loop]
  | succ f ih =>
    intro len curr prev rep n hd
    by_cases hlen0 : len = 0
    · subst hlen0
      simp [outv_hexdump_loop]
    · have h1 : 1 ≤ len := by omega
      have hcl1 : 1 ≤ min len HEXDUMP_ROW_WIDTH := by
        simp [HEXDUMP_ROW_WIDTH]
        omega
      have hcl16 : min len HEXDUMP_ROW_WIDTH ≤ 16 := by
        simp [HEXDUMP_ROW_WIDTH]
      have hdrec : (curr + min len HEXDUMP_ROW_WIDTH) + (len - min len HEXDUMP_ROW_WIDTH) ≤ data.length := by
        have : min len HEXDUMP_ROW_WIDTH ≤ len := by
          simp [HEXDUMP_ROW_WIDTH]
        omega
      rw [outv_hexdump_loop]
      simp only [hlen0, if_false]
      by_cases hc : len ≠ min len HEXDUMP_ROW_WIDTH ∧ curr ≠ 0 ∧
          (data.drop prev).take (min len HEXDUMP_ROW_WIDTH) =
            (data.drop curr).take (min len HEXDUMP_ROW_WIDTH)
      · rw [if_pos hc]
        cases rep with
        | true =>
          rw [if_pos rfl]
          obtain ⟨ihh, ihc⟩ := ih (len - min len HEXDUMP_ROW_WIDTH)
            (curr + min len HEXDUMP_ROW_WIDTH) prev true n hdrec
          exact ⟨fun _ => ihh rfl, ihc⟩
        | false =>
          rw [if_neg (by simp : ¬ (false = true))]
          obtain ⟨ihh, ihc⟩ := ih (len - min len HEXDUMP_ROW_WIDTH)
            (curr + min len HEXDUMP_ROW_WIDTH) prev true n hdrec
          constructor
          · intro hfalse
            simp at hfalse
          · rw [List.chain'_cons']
            constructor
            · intro y hy
              intro hcontra
              exact ihh rfl y hy hcontra.2
            · exact ihc
      · rw [if_neg hc]
        have hguard := hexdump_guards_pass data curr (min len HEXDUMP_ROW_WIDTH) hcl1 hcl16 (by omega)
        rw [if_pos hguard]
        obtain ⟨ihh, ihc⟩ := ih (len - min len HEXDUMP_ROW_WIDTH)
          (curr + min len HEXDUMP_ROW_WIDTH) curr false
          (hexdump_row_line (curr + offset)
            (out_get_hex_str HEXDUMP_ROW_HEX_LEN (data.drop curr) (min len HEXDUMP_ROW_WIDTH)).2
            (out_get_ascii_str HEXDUMP_ROW_ASCII_LEN (data.drop curr) (min len HEXDUMP_ROW_WIDTH)).2).length
          hdrec
        constructor
        · intro _ x hx
          simp only [List.head?_cons, Option.some_inj] at hx
          rw [← hx]
          exact row_line_ne_star _ _ _
        · rw [List.chain'_cons']
          constructor
          · intro y hy hcontra
            exact row_line_ne_star _ _ _ hcontra.1
          · exact ihc

theorem replicate_window (N j l b : Nat) (hj : j + l ≤ N) :
    ((List.replicate N b).drop j).take l = List.replicate l b := by
  rw [List.drop_replicate, List.take_replicate]
  congr 1
  omega


/-! Single-iteration descriptions of the loop, one per branch of the C
while body, used to trace concrete runs. -/

theorem loop_tail_step (data : List Nat) (offset f len curr prev : Nat) (rep : Bool) (n : Nat)
    (h1 : 1 ≤ len) (h16 : len ≤ 16) (hd : curr + len ≤ data.length) :
    outv_hexdump_loop data offset (f + 1) len curr prev rep n =
      ([rowLineAt data offset curr len], (rowLineAt data offset curr len).length) := by
  have hlen0 : ¬ len = 0 := by omega
  have hmin : min len HEXDUMP_ROW_WIDTH = len := by
    simp [HEXDUMP_ROW_WIDTH]
    omega
  have hguard := hexdump_guards_pass data curr len h1 h16 (by omega)
  rw [outv_hexdump_loop]
  simp only [hlen0, if_false, hmin]
  have hcond : ¬ (len ≠ len ∧ curr ≠ 0 ∧
      (data.drop prev).take len = (data.drop curr).take len) := fun h => h.1 rfl
  rw [if_neg hcond, if_pos hguard]
  simp only [Nat.sub_self, loop_len_zero]
  simp [rowLineAt]

theorem loop_first_step (data : List Nat) (offset f len prev : Nat) (rep : Bool) (n : Nat)
    (h1 : 1 ≤ len) (h17 : 17 ≤ len) (hd : len ≤ data.length) :
    outv_hexdump_loop data offset (f + 1) len 0 prev rep n =
      (rowLineAt data offset 0 16 ::
        (outv_hexdump_loop data offset f (len - 16) 16 0 false
          (rowLineAt data offset 0 16).length).1,
        (outv_hexdump_loop data offset f (len - 16) 16 0 false
          (rowLineAt data offset 0 16).length).2) := by
  have hlen0 : ¬ len = 0 := by omega
  have hmin : min len HEXDUMP_ROW_WIDTH = 16 := by
    simp [HEXDUMP_ROW_WIDTH]
    omega
  have hguard := hexdump_guards_pass data 0 16 (by omega) (by omega) (by omega)
  rw [outv_hexdump_loop]
  simp only [hlen0, if_false, hmin]
  have hcond : ¬ (len ≠ 16 ∧ (0 : Nat) ≠ 0 ∧
      (data.drop prev).take 16 = (data.drop 0).take 16) := fun h => h.2.1 rfl
  rw [if_neg hcond, if_pos hguard]
  simp only [rowLineAt, Nat.zero_add]

theorem loop_star_step (data : List Nat) (offset f len curr prev n : Nat)
    (h17 : 17 ≤ len) (hcur : curr ≠ 0)
    (hwin : (data.drop prev).take 16 = (data.drop curr).take 16) :
    outv_hexdump_loop data offset (f + 1) len curr prev false n =
      (starLine :: (outv_hexdump_loop data offset f (len - 16) (curr + 16) prev true n).1,
        (outv_hexdump_loop data offset f (len - 16) (curr + 16) prev true n).2) := by
  have hlen0 : ¬ len = 0 := by omega
  have hmin : min len HEXDUMP_ROW_WIDTH = 16 := by
    simp [HEXDUMP_ROW_WIDTH]
    omega
  rw [outv_hexdump_loop]
  simp only [hlen0, if_false, hmin]
  rw [if_pos ⟨by omega, hcur, hwin⟩]
  rfl

theorem loop_suppressed_step (data : List Nat) (offset f len curr prev n : Nat)
    (h17 : 17 ≤ len) (hcur : curr ≠ 0)
    (hwin : (data.drop prev).take 16 = (data.drop curr).take 16) :
    outv_hexdump_loop data offset (f + 1) len curr prev true n =
      outv_hexdump_loop data offset f (len - 16) (curr + 16) prev true n := by
  have hlen0 : ¬ len = 0 := by omega
  have hmin : min len HEXDUMP_ROW_WIDTH = 16 := by
    simp [HEXDUMP_ROW_WIDTH]
    omega
  rw [outv_hexdump_loop]
  simp only [hlen0, if_false, hmin]
  rw [if_pos ⟨by omega, hcur, hwin⟩]
  rfl

theorem c1_mid (b k offset : Nat) :
    ∀ m fuel n, 1 ≤ m → m < k → 16 * m ≤ fuel →
      outv_hexdump_loop (List.replicate (16 * k) b) offset fuel (16 * m) (16 * (k - m)) 0 true n =
        ([rowLineAt (List.replicate (16 * k) b) offset (16 * (k - 1)) 16],
          (rowLineAt (List.replicate (16 * k) b) offset (16 * (k - 1)) 16).length) := by
  intro m
  induction m with
  | zero =>
    intro fuel n h1 hk hf
    omega
  | succ m ih =>
    intro fuel n h1 hk hf
    obtain ⟨f, rfl⟩ : ∃ f, fuel = f + 1 := ⟨fuel - 1, by omega⟩
    cases m with
    | zero =>
      have e1 : 16 * 1 = 16 := by omega
      rw [e1]
      rw [loop_tail_step (List.replicate (16 * k) b) offset f 16 (16 * (k - 1)) 0 true n
        (by omega) (by omega) (by rw [List.length_replicate]; omega)]
    | succ m' =>
      have hwin : ((List.replicate (16 * k) b).drop 0).take 16 =
          ((List.replicate (16 * k) b).drop (16 * (k - (m' + 1 + 1)))).take 16 := by
        rw [replicate_window (16 * k) 0 16 b (by omega),
          replicate_window (16 * k) (16 * (k - (m' + 1 + 1))) 16 b (by omega)]
      rw [loop_suppressed_step (List.replicate (16 * k) b) offset f (16 * (m' + 1 + 1))
        (16 * (k - (m' + 1 + 1))) 0 n (by omega) (by omega) hwin]
      have e2 : 16 * (m' + 1 + 1) - 16 = 16 * (m' + 1) := by omega
      have e3 : 16 * (k - (m' + 1 + 1)) + 16 = 16 * (k - (m' + 1)) := by omega
      rw [e2, e3]
      exact ih f n (by omega) (by omega) (by omega)

theorem c1_loop (b k offset : Nat) (hk : 3 ≤ k) :
    ∀ fuel n, 16 * k ≤ fuel →
      outv_hexdump_loop (List.replicate (16 * k) b) offset fuel (16 * k) 0 0 false n =
        ([rowLineAt (List.replicate (16 * k) b) offset 0 16, starLine,
          rowLineAt (List.replicate (16 * k) b) offset (16 * (k - 1)) 16],
          (rowLineAt (List.replicate (16 * k) b) offset (16 * (k - 1)) 16).length) := by
  intro fuel n hf
  obtain ⟨f, rfl⟩ : ∃ f, fuel = f + 1 := ⟨fuel - 1, by omega⟩
  rw [loop_first_step (List.replicate (16 * k) b) offset f (16 * k) 0 false n
    (by omega) (by omega) (by rw [List.length_replicate])]
  obtain ⟨f', rfl⟩ : ∃ f', f = f' + 1 := ⟨f - 1, by omega⟩
  have hwin2 : ((List.replicate (16 * k) b).drop 0).take 16 =
      ((List.replicate (16 * k) b).drop 16).take 16 := by
    rw [replicate_window (16 * k) 0 16 b (by omega),
      replicate_window (16 * k) 16 16 b (by omega)]
  rw [loop_star_step (List.replicate (16 * k) b) offset f' (16 * k - 16) 16 0
    (rowLineAt (List.replicate (16 * k) b) offset 0 16).length (by omega) (by omega) hwin2]
  have e3 : 16 * k - 16 - 16 = 16 * (k - 2) := by omega
  have e4 : 16 + 16 = 16 * (k - (k - 2)) := by omega
  rw [e3, e4]
  rw [c1_mid b k offset (k - 2) f' _ (by omega) (by omega) (by omega)]

theorem outv_hexdump_open (ov v : Int) (data : List Nat) (len offset : Nat) (sep : Bool)
    (hgate : outv_check ov v = true) (hlen : 1 ≤ len) :
    outv_hexdump ov v data len offset sep =
      (if sep ∧ (outv_hexdump_loop data offset len len 0 0 false 0).2 ≠ 0 then
        (outv_hexdump_loop data offset len len 0 0 false 0).1 ++
          [List.replicate ((outv_hexdump_loop data offset len len 0 0 false 0).2 - 1)
            SEPARATOR_CHAR ++ ['\n']]
      else (outv_hexdump_loop data offset len len 0 0 false 0).1) := by
  have hno : ¬ (outv_check ov v = false ∨ len = 0) := by
    intro h
    rcases h with h | h
    · rw [hgate] at h
      exact absurd h (by decide)
    · omega
  rw [outv_hexdump, if_neg hno]

theorem rowLineAt_ne_star (data : List Nat) (offset curr l : Nat) :
    rowLineAt data offset curr l ≠ starLine :=
  row_line_ne_star _ _ _

theorem sep_line_ne_star (m : Nat) :
    List.replicate m SEPARATOR_CHAR ++ ['\n'] ≠ starLine := by
  cases m with
  | zero => simp [starLine]
  | succ m' =>
    intro h
    rw [List.replicate_succ] at h
    simp [starLine, SEPARATOR_CHAR] at h

theorem digitChar_mem_lowerHexDigits : ∀ m < 16, Nat.digitChar m ∈ lowerHexDigits := by decide

theorem digitsAux_subset (fuel : Nat) : ∀ n c, c ∈ digitsAux 16 fuel n → c ∈ lowerHexDigits := by
  induction fuel with
  | zero =>
    intro n c h
    simp [digitsAux] at h
  | succ f ih =>
    intro n c h
    by_cases h0 : n = 0
    · simp [digitsAux, h0] at h
    · simp only [digitsAux, h0, if_false, List.mem_append, List.mem_singleton] at h
      rcases h with h | h
      · exact ih _ _ h
      · subst h
        exact digitChar_mem_lowerHexDigits _ (Nat.mod_lt _ (by omega))

theorem hexPad8_subset (n : Nat) : ∀ c, c ∈ hexPad8 n → c ∈ lowerHexDigits := by
  intro c hc
  simp only [hexPad8, zeroPad, List.mem_append] at hc
  rcases hc with hc | hc
  · have := List.eq_of_mem_replicate hc
    subst this
    decide
  · rw [natToBase] at hc
    by_cases h0 : n = 0
    · simp [h0] at hc
      subst hc
      decide
    · simp only [h0, if_false] at hc
      exact digitsAux_subset 64 n c hc

/-! Claim theorems. -/

/-- C1: for a buffer of k*16 identical bytes with k >= 3 and an open
verbosity gate, outv_hexdump emits exactly three lines, in order: the
first 16-byte row formatted in full, one line "*\n", and the last 16-byte
row formatted in full; the intermediate identical rows produce nothing. -/
theorem hexdump_rle (ov v : Int) (b k offset : Nat) (hgate : outv_check ov v = true)
    (hb : b < 256) (hk : 3 ≤ k) :
    outv_hexdump ov v (List.replicate (16 * k) b) (16 * k) offset false =
      [rowLineAt (List.replicate (16 * k) b) offset 0 16, starLine,
        rowLineAt (List.replicate (16 * k) b) offset (16 * (k - 1)) 16] := by
  rw [outv_hexdump_open ov v (List.replicate (16 * k) b) (16 * k) offset false hgate (by omega)]
  rw [if_neg (fun h => absurd h.1 (by decide))]
  rw [c1_loop b k offset hk (16 * k) 0 (le_refl _)]

/-- C1 witness: the theorem applied at b = 255, k = 3, offset 0 with the
gate open. -/
theorem hexdump_rle_witness :
    outv_hexdump 1 0 (List.replicate (16 * 3) 255) (16 * 3) 0 false =
      [rowLineAt (List.replicate (16 * 3) 255) 0 0 16, starLine,
        rowLineAt (List.replicate (16 * 3) 255) 0 (16 * (3 - 1)) 16] :=
  hexdump_rle 1 0 255 3 0 (by decide) (by decide) (by decide)

/-- C2: with the gate open and a nonempty buffer, the dump always begins
with the formatted first row, and its last line is the formatted final row
(of length lastLen len, short when 16 does not divide len) and is never
the star marker -- for every buffer, also when the final row's bytes equal
the prefix of the row printed before it. -/
theorem hexdump_first_last (ov v : Int) (data : List Nat) (len offset : Nat)
    (hgate : outv_check ov v = true) (hlen : 1 ≤ len) (hdata : data.length = len) :
    (outv_hexdump ov v data len offset false).head? =
        some (rowLineAt data offset 0 (min len 16)) ∧
      (outv_hexdump ov v data len offset false).getLast? =
        some (rowLineAt data offset (len - lastLen len) (lastLen len)) ∧
      ∀ x, (outv_hexdump ov v data len offset false).getLast? = some x → x ≠ starLine := by
  have hout : outv_hexdump ov v data len offset false =
      (outv_hexdump_loop data offset len len 0 0 false 0).1 := by
    rw [outv_hexdump_open ov v data len offset false hgate hlen]
    rw [if_neg (fun h => absurd h.1 (by decide))]
  obtain ⟨L, hL⟩ := loop_last data offset len len 0 0 false 0 hlen (le_refl _) (by omega)
  rw [Nat.zero_add] at hL
  obtain ⟨rest, m, hH⟩ := loop_head data offset len len 0 false 0 hlen (le_refl _) (by omega)
  have h1 : (outv_hexdump_loop data offset len len 0 0 false 0).1 =
      rowLineAt data offset 0 (min len 16) :: rest := by
    rw [hH]
  have h2 : (outv_hexdump_loop data offset len len 0 0 false 0).1 =
      L ++ [rowLineAt data offset (len - lastLen len) (lastLen len)] := by
    rw [hL]
  refine ⟨?_, ?_, ?_⟩
  · rw [hout, h1]
    rfl
  · rw [hout, h2]
    exact List.getLast?_concat L
  · intro x hx
    rw [hout, h2, List.getLast?_concat] at hx
    have : x = rowLineAt data offset (len - lastLen len) (lastLen len) := by
      exact (Option.some_inj.mp hx).symm
    rw [this]
    exact rowLineAt_ne_star data offset _ _

/-- C2 witness: a 4-byte buffer, gate open; the single row is both the
first and the last line. -/
theorem hexdump_first_last_witness :
    (outv_hexdump 1 0 [0, 0, 0, 0] 4 0 false).head? =
        some (rowLineAt [0, 0, 0, 0] 0 0 (min 4 16)) ∧
      (outv_hexdump 1 0 [0, 0, 0, 0] 4 0 false).getLast? =
        some (rowLineAt [0, 0, 0, 0] 0 (4 - lastLen 4) (lastLen 4)) ∧
      ∀ x, (outv_hexdump 1 0 [0, 0, 0, 0] 4 0 false).getLast? = some x → x ≠ starLine :=
  hexdump_first_last 1 0 [0, 0, 0, 0] 4 0 (by decide) (by decide) (by decide)

/-- C3: every printed hexdump row has the exact claimed shape: the code's
row rendering (offset label, double space, the code's hex column padded by
%-*s to HEXDUMP_ROW_HEX_LEN, the bars, the padded ASCII column, newline)
equals the claim-side decomposition spec_row_line (offset as 8 zero-padded
lowercase hex digits, two spaces, tokens separated by single spaces with
one extra space between the 8th and 9th token padded to 49 characters,
exactly one space, bar, 16-character ASCII column, bar, newline); the
offset field is 8 lowercase hex digits and the whole line is 79 bytes. -/
theorem hexdump_row_shape (bs : List Nat) (offsetv : Nat)
    (h1 : 1 ≤ bs.length) (h16 : bs.length ≤ 16) (hoff : offsetv < 16 ^ 8) :
    hexdump_row_line offsetv
        (out_get_hex_str HEXDUMP_ROW_HEX_LEN bs bs.length).2
        (out_get_ascii_str HEXDUMP_ROW_ASCII_LEN bs bs.length).2 =
      spec_row_line offsetv bs ∧
    (hexPad8 offsetv).length = 8 ∧
    (∀ c, c ∈ hexPad8 offsetv → c ∈ lowerHexDigits) ∧
    (hexdump_row_line offsetv
        (out_get_hex_str HEXDUMP_ROW_HEX_LEN bs bs.length).2
        (out_get_ascii_str HEXDUMP_ROW_ASCII_LEN bs bs.length).2).length = 79 := by
  have hne : bs ≠ [] := by
    intro h
    subst h
    simp at h1
  have hhex : (out_get_hex_str HEXDUMP_ROW_HEX_LEN bs bs.length).2 =
      spec_hex_tokens_aux 0 bs ++ [' '] := by
    rw [out_get_hex_str_eq bs bs.length h16]
    show hex_row_aux 0 (bs.take bs.length) = _
    rw [List.take_length]
    exact hex_eq_spec_tokens bs hne
  have hasc : (out_get_ascii_str HEXDUMP_ROW_ASCII_LEN bs bs.length).2 =
      bs.map out_get_printable_ascii := by
    rw [out_get_ascii_str_eq bs bs.length h16]
    show (bs.take bs.length).map out_get_printable_ascii = _
    rw [List.take_length]
  have hslen : (spec_hex_tokens_aux 0 bs).length ≤ 49 := by
    have h := out_get_hex_str_len_le bs bs.length h16
    rw [hhex] at h
    simp at h
    omega
  refine ⟨?_, hexPad8_length offsetv hoff, hexPad8_subset offsetv, ?_⟩
  · rw [hhex, hasc, hexdump_row_line, spec_row_line]
    have hHL : HEXDUMP_ROW_HEX_LEN = 50 := by decide
    have hW : HEXDUMP_ROW_WIDTH = 16 := by decide
    rw [hHL, hW, padRight_shift _ hslen]
    simp [List.append_assoc]
  · apply hexdump_row_line_length
    · rw [hhex]
      simp
      omega
    · rw [hasc]
      simp
      omega
    · exact hoff

/-- C3 witness: the theorem applied to the six bytes of "Hello\n" at
offset 0x100. -/
theorem hexdump_row_shape_witness :
    hexdump_row_line 256
        (out_get_hex_str HEXDUMP_ROW_HEX_LEN [72, 101, 108, 108, 111, 10] 6).2
        (out_get_ascii_str HEXDUMP_ROW_ASCII_LEN [72, 101, 108, 108, 111, 10] 6).2 =
      spec_row_line 256 [72, 101, 108, 108, 111, 10] :=
  (hexdump_row_shape [72, 101, 108, 108, 111, 10] 256 (by decide) (by decide) (by decide)).1

/-- C4: with the gate open, a nonempty buffer of the stated length and row
offsets fitting in 8 hex digits, the dump with sep set equals the dump
without sep followed by exactly one line of N - 1 = 78 SEPARATOR_CHARs and
a newline, where N = 79 is the byte count fprintf reports for the last
printed row and is the width of one full formatted dump line (short tail
rows are padded to the same width); with the gate closed, or with len = 0,
nothing at all (hence no separator) is emitted. -/
theorem hexdump_separator (ov v : Int) (data : List Nat) (len offset : Nat)
    (hgate : outv_check ov v = true) (hlen : 1 ≤ len) (hdata : data.length = len)
    (hoff : offset + len ≤ 16 ^ 8) :
    outv_hexdump ov v data len offset true =
        outv_hexdump ov v data len offset false ++
          [List.replicate 78 SEPARATOR_CHAR ++ ['\n']] ∧
      (∀ ov' v', outv_check ov' v' = false → outv_hexdump ov' v' data len offset true = []) ∧
      outv_hexdump ov v data 0 offset true = [] := by
  obtain ⟨L, hL⟩ := loop_last data offset len len 0 0 false 0 hlen (le_refl _) (by omega)
  rw [Nat.zero_add] at hL
  have hlast1 : 1 ≤ lastLen len := by
    rw [lastLen]
    omega
  have hlast16 : lastLen len ≤ 16 := by
    rw [lastLen]
    omega
  have hlastle : lastLen len ≤ len := by
    rw [lastLen]
    omega
  have h79 : (rowLineAt data offset (len - lastLen len) (lastLen len)).length = 79 := by
    rw [rowLineAt]
    apply hexdump_row_line_length
    · have := out_get_hex_str_len_le (data.drop (len - lastLen len)) (lastLen len) hlast16
      omega
    · exact out_get_ascii_str_len_le (data.drop (len - lastLen len)) (lastLen len) hlast16
    · omega
  have hL2 : (outv_hexdump_loop data offset len len 0 0 false 0).2 = 79 := by
    rw [hL]
    exact h79
  refine ⟨?_, ?_, ?_⟩
  · rw [outv_hexdump_open ov v data len offset true hgate hlen,
      outv_hexdump_open ov v data len offset false hgate hlen]
    rw [if_pos ⟨rfl, by rw [hL2]; omega⟩]
    rw [if_neg (fun h => absurd h.1 (by decide))]
    rw [hL2]
  · intro ov' v' hg
    rw [outv_hexdump, if_pos (Or.inl hg)]
  · rw [outv_hexdump, if_pos (Or.inr rfl)]

/-- C4 witness: the theorem applied to a 17-byte zero buffer (short tail
row) at offset 0. -/
theorem hexdump_separator_witness :
    outv_hexdump 1 0 (List.replicate 17 0) 17 0 true =
      outv_hexdump 1 0 (List.replicate 17 0) 17 0 false ++
        [List.replicate 78 SEPARATOR_CHAR ++ ['\n']] :=
  (hexdump_separator 1 0 (List.replicate 17 0) 17 0 (by decide) (by decide) (by decide)
    (by decide)).1

/-- C10: in the line sequence of any single outv_hexdump call on a buffer
holding at least len bytes, the first line is never the star marker, and
no two star marker lines are adjacent. -/
theorem hexdump_star_lines (ov v : Int) (data : List Nat) (len offset : Nat) (sep : Bool)
    (hd : len ≤ data.length) :
    (∀ x, (outv_hexdump ov v data len offset sep).head? = some x → x ≠ starLine) ∧
      List.Chain' (fun a b => ¬ (a = starLine ∧ b = starLine))
        (outv_hexdump ov v data len offset sep) := by
  by_cases hcase : outv_check ov v = false ∨ len = 0
  · rw [outv_hexdump, if_pos hcase]
    constructor
    · intro x hx
      simp at hx
    · simp
  · have hgate : outv_check ov v = true := by
      rcases Bool.eq_false_or_eq_true (outv_check ov v) with h | h
      · exact h
      · exact absurd (Or.inl h) hcase
    have hlen : 1 ≤ len := by
      rcases Nat.eq_zero_or_pos len with h | h
      · exact absurd (Or.inr h) hcase
      · exact h
    rw [outv_hexdump_open ov v data len offset sep hgate hlen]
    obtain ⟨hhd, hch⟩ := loop_star_discipline data offset len len 0 0 false 0 (by omega)
    obtain ⟨rest, m, hH⟩ := loop_head data offset len len 0 false 0 hlen (le_refl _) (by omega)
    have h1 : (outv_hexdump_loop data offset len len 0 0 false 0).1 =
        rowLineAt data offset 0 (min len 16) :: rest := by
      rw [hH]
    by_cases hs : (sep = true) ∧ (outv_hexdump_loop data offset len len 0 0 false 0).2 ≠ 0
    · rw [if_pos hs]
      constructor
      · intro x hx
        rw [h1] at hx
        simp only [List.cons_append, List.head?_cons, Option.some_inj] at hx
        rw [← hx]
        exact rowLineAt_ne_star data offset 0 (min len 16)
      · rw [List.chain'_append]
        refine ⟨hch, List.chain'_singleton _, ?_⟩
        intro x hx y hy
        simp only [List.head?_cons, Option.mem_def, Option.some_inj] at hy
        intro hcontra
        rw [← hy] at hcontra
        exact sep_line_ne_star _ hcontra.2
    · rw [if_neg hs]
      constructor
      · intro x hx
        rw [h1] at hx
        simp only [List.head?_cons, Option.some_inj] at hx
        rw [← hx]
        exact rowLineAt_ne_star data offset 0 (min len 16)
      · exact hch

/-- C10 witness: the theorem applied to a 48-byte constant buffer with the
gate open (output: row, star, row). -/
theorem hexdump_star_lines_witness :
    (∀ x, (outv_hexdump 1 0 (List.replicate 48 255) 48 0 false).head? = some x →
        x ≠ starLine) ∧
      List.Chain' (fun a b => ¬ (a = starLine ∧ b = starLine))
        (outv_hexdump 1 0 (List.replicate 48 255) 48 0 false) :=
  hexdump_star_lines 1 0 (List.replicate 48 255) 48 0 false (by decide)

/-- C5: for every validator behaviour (verdict and value left in *csump)
and every stored value, out_get_checksum leaves the 64-bit value at the
pointer equal to its pre-call value, and the returned string is
"0x<stored:08x> [OK]" when the verdict is valid and
"0x<stored:08x> [wrong! should be: 0x<expected:08x>]" otherwise, stored
being the original value read before the call and expected the value the
validator left behind. -/
theorem checksum_roundtrip (validate : Nat → Bool × Nat) (csum0 : Nat) :
    (out_get_checksum validate csum0).2 = csum0 ∧
      (out_get_checksum validate csum0).1 =
        (if (validate csum0).1 then
          ('0' :: 'x' :: []) ++ hexPad8 (csum0 % 2 ^ 32) ++ " [OK]".toList
        else
          ('0' :: 'x' :: []) ++ hexPad8 (csum0 % 2 ^ 32) ++ " [wrong! should be: 0x".toList
            ++ hexPad8 ((validate csum0).2 % 2 ^ 32) ++ "]".toList) := by
  constructor
  · rfl
  · rfl

/-- C6 counterexample: at size 1024^5 the claim's division rule (divide
while the value is at least 1024 and a unit letter K, M, G, T remains)
yields "1024.0T", but the code divides a fifth time -- the loop bound
counts the NUL terminator of the units array -- and its %c writes that NUL
into the buffer, so out_get_size_str returns "1.0". -/
theorem size_str_counterexample :
    out_get_size_str (1024 ^ 5) 1 = "1.0".toList ∧
      size_str_claimed (1024 ^ 5) = "1024.0T".toList ∧
      out_get_size_str (1024 ^ 5) 1 ≠ size_str_claimed (1024 ^ 5) := by
  refine ⟨by decide, by decide, by decide⟩

/-- C6 amended: the claimed instances all hold -- 1023 is decimal "1023",
1024 is "1.0K", 1536 is "1.5K" (both mode "1.5K [1536]"), and 1024^i for i
in 0..4 ends in '', K, M, G, T -- but the claimed rule (divide while the
value is at least 1024 and a unit letter K, M, G, T remains) is not the
code's rule: the loop bound counts the NUL terminator of the unit array as
a fifth unit. At 1024^5 the value is divided a fifth time, the %c writes
the selected NUL into the buffer and the C string is truncated right after
the number, so 1024^5 renders as "1.0" in human and in both mode, not
"1024.0T"; at 1024^6 the value survives the fifth division at 1024, the
index leaves the units range and the code falls back to the plain %ld
decimal, rendering "1152921504606846976". -/
theorem size_str_amended :
    out_get_size_str 1023 1 = "1023".toList ∧
      out_get_size_str 1024 1 = "1.0K".toList ∧
      out_get_size_str 1536 1 = "1.5K".toList ∧
      out_get_size_str 1536 2 = "1.5K [1536]".toList ∧
      out_get_size_str 1 1 = "1".toList ∧
      out_get_size_str (1024 ^ 2) 1 = "1.0M".toList ∧
      out_get_size_str (1024 ^ 3) 1 = "1.0G".toList ∧
      out_get_size_str (1024 ^ 4) 1 = "1.0T".toList ∧
      out_get_size_str (1024 ^ 5) 1 = "1.0".toList ∧
      out_get_size_str (1024 ^ 5) 2 = "1.0".toList ∧
      out_get_size_str (1024 ^ 6) 1 = "1152921504606846976".toList := by
  refine ⟨by decide, by decide, by decide, by decide, by decide, by decide, by decide,
    by decide, by decide, by decide, by decide⟩

/-- C7: bytes mode formats the uint64_t size with %ld, reinterpreting it
as a signed 64-bit integer, so 2^63 prints as "-9223372036854775808"
rather than the unsigned decimal the claim states. -/
theorem size_bytes_mode_signed_eval :
    out_get_size_str (2 ^ 63) 0 = "-9223372036854775808".toList ∧
      out_get_size_str (2 ^ 63) 0 ≠ "9223372036854775808".toList := by
  constructor
  · decide
  · decide

/-- C8: outv writes to the stream exactly when outv_check holds, that is
when the configured verbosity is at least the call verbosity; when open it
writes the prefix part followed by the message, the prefix part being
"<prefix>: " when a prefix is set and empty otherwise; when closed it
writes nothing. -/
theorem outv_gating (st : OutState) (v : Int) (msg : List Char) :
    (outv_check st.out_vlevel v = true ↔ v ≤ st.out_vlevel) ∧
      (v ≤ st.out_vlevel → outv st v msg = out_pfx_str st ++ msg) ∧
      (st.out_vlevel < v → outv st v msg = []) ∧
      (st.out_pfx = none → out_pfx_str st = []) ∧
      (∀ p, st.out_pfx = some p → out_pfx_str st = p ++ (':' :: ' ' :: [])) := by
  refine ⟨?_, ?_, ?_, ?_, ?_⟩
  · simp [outv_check]
  · intro h
    rw [outv, if_pos (show outv_check st.out_vlevel v = true by
      rw [outv_check]
      exact decide_eq_true h)]
  · intro h
    rw [outv, if_neg (show ¬ outv_check st.out_vlevel v = true by
      rw [outv_check]
      simp
      omega)]
  · intro h
    simp [out_pfx_str, h]
  · intro p h
    simp [out_pfx_str, h]

/-- C8 witness: the theorem applied at verbosity 1 with prefix "P" (gate
open, equality case) and at verbosity 2 against a configured level of 1
(gate closed). -/
theorem outv_gating_witness :
    outv ⟨1, some ['P']⟩ 1 ['h'] = out_pfx_str ⟨1, some ['P']⟩ ++ ['h'] ∧
      outv ⟨1, none⟩ 2 ['h'] = [] :=
  ⟨(outv_gating ⟨1, some ['P']⟩ 1 ['h']).2.1 (by decide),
    (outv_gating ⟨1, none⟩ 2 ['h']).2.2.1 (by decide)⟩

/-- C9 counterexample: a failing assembler call (destination capacity 0,
one byte requested) returns -1, and hexdump's row guard -- "if (ra && rh)",
i.e. both return values nonzero -- evaluates to true on these -1 results,
so the offending row would be printed, not skipped as the claim states. -/
theorem assembler_failure_counterexample :
    (out_get_hex_str 0 [5] 1).1 = -1 ∧
      (out_get_ascii_str 0 [5] 1).1 = -1 ∧
      row_print_guard (out_get_ascii_str 0 [5] 1).1 (out_get_hex_str 0 [5] 1).1 = true := by
  refine ⟨by decide, by decide, by decide⟩

/-- C9 amended: the assemblers return -1 exactly when the destination is
too small for the requested length, and with hexdump's fixed buffer sizes
(HEXDUMP_ROW_HEX_LEN and HEXDUMP_ROW_ASCII_LEN) and row lengths of at most
16 this never happens; however the row guard of hexdump skips a row only
when an assembler returns 0 -- a -1 return value, being nonzero, passes
the guard, so a failing assembler would not cause the row to be skipped. -/
theorem assembler_failure_amended :
    (∀ sl (dp : List Nat) l, (out_get_hex_str sl dp l).1 = -1 ↔ sl < 3 * l + 1) ∧
      (∀ sl (dp : List Nat) l, (out_get_ascii_str sl dp l).1 = -1 ↔ sl < l) ∧
      (∀ (dp : List Nat) l, l ≤ 16 →
        (out_get_hex_str HEXDUMP_ROW_HEX_LEN dp l).1 ≠ -1 ∧
          (out_get_ascii_str HEXDUMP_ROW_ASCII_LEN dp l).1 ≠ -1) ∧
      (∀ ra rh : Int, row_print_guard ra rh = true ↔ (ra ≠ 0 ∧ rh ≠ 0)) := by
  refine ⟨?_, ?_, ?_, ?_⟩
  · intro sl dp l
    by_cases h : sl < 3 * l + 1
    · simp [out_get_hex_str, h]
    · simp only [out_get_hex_str, h, if_false]
      constructor
      · intro hc
        omega
      · intro hc
        exact hc.elim
  · intro sl dp l
    by_cases h : sl < l
    · simp [out_get_ascii_str, h]
    · simp only [out_get_ascii_str, h, if_false]
      constructor
      · intro hc
        omega
      · intro hc
        exact hc.elim
  · intro dp l h16
    have hno1 : ¬ (HEXDUMP_ROW_HEX_LEN < 3 * l + 1) := by
      simp [HEXDUMP_ROW_HEX_LEN, HEXDUMP_ROW_WIDTH]
      omega
    have hno2 : ¬ (HEXDUMP_ROW_ASCII_LEN < l) := by
      simp [HEXDUMP_ROW_ASCII_LEN, HEXDUMP_ROW_WIDTH]
      omega
    constructor
    · simp only [out_get_hex_str, hno1, if_false]
      intro hc
      omega
    · simp only [out_get_ascii_str, hno2, if_false]
      intro hc
      omega
  · intro ra rh
    rw [row_print_guard]
    simp [bne_iff_ne]

/-- C9 witness: the amended theorem applied at a too-small destination (the
-1 case), at hexdump's own capacity (no -1), and at the guard on -1. -/
theorem assembler_failure_amended_witness :
    (out_get_hex_str 0 [5] 1).1 = -1 ∧
      (out_get_hex_str HEXDUMP_ROW_HEX_LEN [5] 1).1 ≠ -1 ∧
      row_print_guard (-1) (-1) = true :=
  ⟨(assembler_failure_amended.1 0 [5] 1).mpr (by decide),
    (assembler_failure_amended.2.2.1 [5] 1 (by decide)).1,
    (assembler_failure_amended.2.2.2 (-1) (-1)).mpr (by decide)⟩
